import Mathlib

/-
Verification development for rapids_pre_commit_hooks/alpha_spec.py.

The Python module walks a YAML dependency document, finds requirement
strings for a fixed set of RAPIDS packages, and in "development" mode
requires (in "release" mode forbids) the alpha sentinel specifier
">=0.0.0a0", emitting warnings with span-exact replacement fixes.

The embedding below translates the module's data and control flow:
  - the package-name tables and the cuda-suffix regex,
  - a model of the external packaging.requirements.Requirement grammar
    (name, optional extras, comma-separated specifier clauses, optional
    environment marker after a semicolon),
  - the SpecPriority comparator and the canonical specifier serialization
    (Python's sorted is a stable sort; stable sorting under a fixed
    comparator is unique, so a stable insertion sort models it),
  - check_package_spec and the fixed-schema walker check_root,
  - check_alpha_spec over the list of documents composed by the
    AnchorPreservingLoader.
-/

namespace AlphaSpec

def RAPIDS_ALPHA_SPEC_PACKAGES : List String :=
  ["cubinlinker", "cucim", "cudf", "cugraph", "cugraph-dgl", "cugraph-equivariant",
   "cugraph-pyg", "cuml", "cuproj", "cuspatial", "cuxfilter", "dask-cuda", "dask-cudf",
   "distributed-ucxx", "librmm", "libucx", "nx-cugraph", "ptxcompiler", "pylibcugraph",
   "pylibcugraphops", "pylibraft", "pylibwholegraph", "pynvjitlink", "raft-dask", "rmm",
   "ucx-py", "ucxx"]

def RAPIDS_NON_CUDA_SUFFIXED_PACKAGES : List String :=
  ["dask-cuda"]

def RAPIDS_CUDA_SUFFIXED_PACKAGES : List String :=
  RAPIDS_ALPHA_SPEC_PACKAGES.filter (fun p => !RAPIDS_NON_CUDA_SUFFIXED_PACKAGES.contains p)

def ALPHA_SPECIFIER : String := ">=0.0.0a0"

/-- Model of CUDA_SUFFIX_REGEX, the anchored pattern matching a name of the
form base + "-cu" + two digits; the suffix part has fixed length five, so
the captured "package" group is always the name minus its last five
characters, provided those five match. -/
def cudaSuffixBase (name : String) : Option String :=
  let cs := name.toList
  if 5 ≤ cs.length then
    match cs.drop (cs.length - 5) with
    | ['-', 'c', 'u', d1, d2] =>
      if d1.isDigit && d2.isDigit then some (String.mk (cs.take (cs.length - 5))) else none
    | _ => none
  else none

def is_rapids_cuda_suffixed_package (name : String) : Bool :=
  RAPIDS_CUDA_SUFFIXED_PACKAGES.any (fun package => cudaSuffixBase name == some package)

/-- Tracked-name condition of check_package_spec: the name is in
RAPIDS_ALPHA_SPEC_PACKAGES or matches the cuda-suffix rule. -/
def isTrackedPackage (name : String) : Bool :=
  RAPIDS_ALPHA_SPEC_PACKAGES.contains name || is_rapids_cuda_suffixed_package name

/-! Model of the external requirement grammar (packaging.requirements).
A requirement is a name, optional bracketed extras, a comma-separated
list of specifier clauses (comparison operator + version literal), and an
optional environment marker introduced by a semicolon.  The textual form
of a parsed specifier clause normalizes away surrounding whitespace. -/

def isWs (c : Char) : Bool := c = ' ' || c = '\t'

def trimChars (cs : List Char) : List Char :=
  ((cs.dropWhile isWs).reverse.dropWhile isWs).reverse

def isNameChar (c : Char) : Bool :=
  c.isAlphanum || c = '.' || c = '_' || c = '-'

def isOpChar (c : Char) : Bool :=
  c = '<' || c = '>' || c = '=' || c = '!' || c = '~'

def isVersionChar (c : Char) : Bool :=
  c.isAlphanum || c = '.' || c = '*' || c = '+' || c = '-' || c = '_' || c = '!'

def validOps : List (List Char) :=
  [['=', '='], ['!', '='], ['<', '='], ['>', '='], ['<'], ['>'], ['~', '='], ['=', '=', '=']]

/-- Parse one specifier clause and return its normalized text: the
comparison operator followed by the version literal, whitespace removed.
A version literal begins with an alphanumeric character. -/
def parseClause (cs : List Char) : Option (List Char) :=
  let cs := trimChars cs
  let op := cs.takeWhile isOpChar
  let ver := trimChars (cs.dropWhile isOpChar)
  if validOps.contains op && ver.all isVersionChar &&
      (match ver with
       | [] => false
       | c :: _ => c.isAlphanum) then
    some (op ++ ver)
  else
    none

def splitOnChar (sep : Char) (cs : List Char) : List (List Char) :=
  cs.foldr
    (fun c acc =>
      if c = sep then [] :: acc
      else
        match acc with
        | h :: t => (c :: h) :: t
        | [] => [[c]])
    [[]]

def parseClauses : List (List Char) → Option (List (List Char))
  | [] => some []
  | c :: cs =>
    match parseClause c, parseClauses cs with
    | some r, some rs => some (r :: rs)
    | _, _ => none

def parseSpecList (cs : List Char) : Option (List (List Char)) :=
  if trimChars cs = [] then some []
  else parseClauses (splitOnChar ',' cs)

def validName (cs : List Char) : Bool :=
  match cs with
  | [] => false
  | c :: rest =>
    c.isAlphanum &&
      (match rest.getLast? with
       | none => true
       | some d => d.isAlphanum) &&
      cs.all isNameChar

/-- Parse an optional bracketed extras group at the front of the input. -/
def parseExtras (cs : List Char) : Option (List String × List Char) :=
  match cs with
  | [] => some ([], [])
  | c :: rest =>
    if c = '[' then
      let inner := rest.takeWhile (fun ch => ch ≠ ']')
      match rest.dropWhile (fun ch => ch ≠ ']') with
      | ']' :: after =>
        if trimChars inner = [] then some ([], after)
        else
          let parts := (splitOnChar ',' inner).map trimChars
          if parts.all validName then some (parts.map String.mk, after) else none
      | _ => none
    else some ([], c :: rest)

/-- Split at the first semicolon: the specifier part and, when a semicolon
is present, the remainder holding the environment marker. -/
def splitSemi (cs : List Char) : List Char × Option (List Char) :=
  let spec := cs.takeWhile (fun c => c ≠ ';')
  match cs.dropWhile (fun c => c ≠ ';') with
  | [] => (spec, none)
  | _ :: m => (spec, some m)

structure Req where
  name : String
  extras : List String
  specs : List String
  marker : Option String
deriving DecidableEq, Repr

/-- Model of packaging.requirements.Requirement: parse a requirement
string into a name, extras, specifier clauses and marker, or fail. -/
def parseReq (s : String) : Option Req :=
  let cs := trimChars s.toList
  let name := cs.takeWhile isNameChar
  let rest0 := (cs.dropWhile isNameChar).dropWhile isWs
  if validName name then
    match parseExtras rest0 with
    | none => none
    | some (extras, rest1) =>
      let (specPart, markerPart) := splitSemi rest1
      match parseSpecList specPart with
      | none => none
      | some clauses =>
        match markerPart with
        | none => some ⟨String.mk name, extras, clauses.map String.mk, none⟩
        | some m =>
          let m := trimChars m
          if m = [] then none
          else some ⟨String.mk name, extras, clauses.map String.mk, some (String.mk m)⟩
  else none

/-! SpecPriority comparator and canonical serialization. -/

/-- Lexicographic comparison of character lists by code point, the
semantics of Python string comparison. -/
def charListLt : List Char → List Char → Bool
  | [], [] => false
  | [], _ :: _ => true
  | _ :: _, [] => false
  | a :: as, b :: bs => if a < b then true else if b < a then false else charListLt as bs

/-- Clause text with every comparison-operator character removed, the
sort key of SpecPriority. -/
def sort_str (s : String) : String :=
  String.mk (s.toList.filter (fun c => !(c = '<' || c = '>' || c = '=')))

/-- The strict comparison of SpecPriority: equal texts are not less; the
alpha sentinel is never less than anything and everything else is less
than it; otherwise compare the stripped texts lexically. -/
def specLt (a b : String) : Bool :=
  if a = b then false
  else if a = ALPHA_SPECIFIER then false
  else if b = ALPHA_SPECIFIER then true
  else charListLt (sort_str a).toList (sort_str b).toList

/-- Stable ascending insertion of one element: the new element goes after
every existing element that is not strictly greater. -/
def insertSpec (a : String) : List String → List String
  | [] => [a]
  | b :: bs => if specLt b a then b :: insertSpec a bs else a :: b :: bs

/-- Stable ascending sort under specLt, the semantics of Python's
sorted(specifiers, key=SpecPriority). -/
def sortSpecifiers : List String → List String
  | [] => []
  | a :: as => insertSpec a (sortSpecifiers as)

def joinChar (sep : Char) : List (List Char) → List Char
  | [] => []
  | [x] => x
  | x :: y :: xs => x ++ sep :: joinChar sep (y :: xs)

/-- Serialization of a specifier set: sort by SpecPriority and join the
clause texts with commas. -/
def create_specifier_string (specifiers : List String) : String :=
  String.mk (joinChar ',' ((sortSpecifiers specifiers).map String.toList))

/-! Python set operations on string sets, modelled as deduplicated
lists. -/

def pyUnion (a b : List String) : List String := (a ++ b).dedup

def pyDiff (a b : List String) : List String := a.filter (fun x => !b.contains x)

/-! YAML node tree, warnings, and the checker. -/

inductive Node where
  | scalar (tag : String) (value : String) (startIdx endIdx : Nat)
  | seqNode (tag : String) (items : List Node) (startIdx endIdx : Nat)
  | mapNode (tag : String) (pairs : List (Node × Node)) (startIdx endIdx : Nat)
deriving Repr

mutual

def nodeBeq : Node → Node → Bool
  | .scalar t v s e, .scalar t' v' s' e' => t == t' && v == v' && s == s' && e == e'
  | .seqNode t items s e, .seqNode t' items' s' e' =>
    t == t' && nodesBeq items items' && s == s' && e == e'
  | .mapNode t ps s e, .mapNode t' ps' s' e' =>
    t == t' && pairsBeq ps ps' && s == s' && e == e'
  | _, _ => false

def nodesBeq : List Node → List Node → Bool
  | [], [] => true
  | a :: as, b :: bs => nodeBeq a b && nodesBeq as bs
  | _, _ => false

def pairsBeq : List (Node × Node) → List (Node × Node) → Bool
  | [], [] => true
  | (k, v) :: as, (k', v') :: bs => nodeBeq k k' && nodeBeq v v' && pairsBeq as bs
  | _, _ => false

end

def yamlTag (t : String) : String := "tag:yaml.org,2002:" ++ t

/-- Model of node_has_type, specialized to composed nodes whose tag kind
agrees with their structural kind. -/
def nodeTag : Node → String
  | .scalar tag _ _ _ => tag
  | .seqNode tag _ _ _ => tag
  | .mapNode tag _ _ _ => tag

inductive Mode where
  | development
  | release
deriving DecidableEq, Repr

structure Warning where
  span : Nat × Nat
  message : String
  replacement : Option ((Nat × Nat) × String)
deriving DecidableEq, Repr

abbrev Anchors := List (String × Node)

/-- Reverse lookup in the anchor table: the first anchor name whose bound
node equals the given node, as in the for/else loop of
check_package_spec. -/
def lookupAnchor (anchors : Anchors) (node : Node) : Option String :=
  match anchors.find? (fun kv => nodeBeq kv.2 node) with
  | some kv => some kv.1
  | none => none

/-- Membership test "anchor not in used_anchors"; a node without an
anchor (Python None) is never in the set of used anchor names. -/
def anchorNotUsed (anchor : Option String) (used : List String) : Bool :=
  match anchor with
  | some a => !used.contains a
  | none => true

def addUsed (anchor : Option String) (used : List String) : List String :=
  match anchor with
  | some a => a :: used
  | none => used

def anchorText : Option String → String
  | some a => "&" ++ a ++ " "
  | none => ""

/-- Translation of check_package_spec: on a string scalar, parse the
requirement (invalid strings are skipped), skip untracked names, resolve
the node's anchor and skip anchors already used, otherwise mark the
anchor used and apply the mode policy, emitting at most one warning with
a span-exact replacement fix. -/
def check_package_spec (mode : Mode) (anchors : Anchors) (used : List String)
    (node : Node) : List Warning × List String :=
  match node with
  | .scalar tag v s e =>
    if tag == yamlTag "str" then
      match parseReq v with
      | none => ([], used)
      | some req =>
        if isTrackedPackage req.name then
          let anchor := lookupAnchor anchors (.scalar tag v s e)
          if anchorNotUsed anchor used then
            let used' := addUsed anchor used
            let specsSet := req.specs.dedup
            let hasAlphaSpec := specsSet.any (fun sp => sp == ALPHA_SPECIFIER)
            match mode with
            | .development =>
              if !hasAlphaSpec then
                ([⟨(s, e), "add alpha spec for RAPIDS package " ++ req.name,
                   some ((s, e),
                     anchorText anchor ++ req.name ++
                       create_specifier_string (pyUnion specsSet [ALPHA_SPECIFIER]))⟩],
                 used')
              else ([], used')
            | .release =>
              if hasAlphaSpec then
                ([⟨(s, e), "remove alpha spec for RAPIDS package " ++ req.name,
                   some ((s, e),
                     anchorText anchor ++ req.name ++
                       create_specifier_string (pyDiff specsSet [ALPHA_SPECIFIER]))⟩],
                 used')
              else ([], used')
          else ([], used)
        else ([], used)
    else ([], used)
  | _ => ([], used)

/-- Sequential run of a per-item check over a list, threading the
used-anchor set and accumulating warnings in order, the semantics of the
Python for loops over node children. -/
def runChecks {α : Type} (f : List String → α → List Warning × List String)
    (used : List String) : List α → List Warning × List String
  | [] => ([], used)
  | x :: xs =>
    ((f used x).1 ++ (runChecks f (f used x).2 xs).1, (runChecks f (f used x).2 xs).2)

def check_packages (mode : Mode) (anchors : Anchors) (used : List String)
    (node : Node) : List Warning × List String :=
  match node with
  | .seqNode tag items _ _ =>
    if tag == yamlTag "seq" then runChecks (check_package_spec mode anchors) used items
    else ([], used)
  | _ => ([], used)

def isStrKeyNamed (k : Node) (name : String) : Bool :=
  match k with
  | .scalar tag v _ _ => tag == yamlTag "str" && v == name
  | _ => false

def check_common (mode : Mode) (anchors : Anchors) (used : List String)
    (node : Node) : List Warning × List String :=
  match node with
  | .seqNode tag items _ _ =>
    if tag == yamlTag "seq" then
      runChecks
        (fun used ds =>
          match ds with
          | Node.mapNode t ps _ _ =>
            if t == yamlTag "map" then
              runChecks
                (fun used kv =>
                  if isStrKeyNamed kv.1 "packages" then
                    check_packages mode anchors used kv.2
                  else ([], used))
                used ps
            else ([], used)
          | _ => ([], used))
        used items
    else ([], used)
  | _ => ([], used)

def check_matrices (mode : Mode) (anchors : Anchors) (used : List String)
    (node : Node) : List Warning × List String :=
  match node with
  | .seqNode tag items _ _ =>
    if tag == yamlTag "seq" then
      runChecks
        (fun used item =>
          match item with
          | Node.mapNode t ps _ _ =>
            if t == yamlTag "map" then
              runChecks
                (fun used kv =>
                  if isStrKeyNamed kv.1 "packages" then
                    check_packages mode anchors used kv.2
                  else ([], used))
                used ps
            else ([], used)
          | _ => ([], used))
        used items
    else ([], used)
  | _ => ([], used)

def check_specific (mode : Mode) (anchors : Anchors) (used : List String)
    (node : Node) : List Warning × List String :=
  match node with
  | .seqNode tag items _ _ =>
    if tag == yamlTag "seq" then
      runChecks
        (fun used mm =>
          match mm with
          | Node.mapNode t ps _ _ =>
            if t == yamlTag "map" then
              runChecks
                (fun used kv =>
                  if isStrKeyNamed kv.1 "matrices" then
                    check_matrices mode anchors used kv.2
                  else ([], used))
                used ps
            else ([], used)
          | _ => ([], used))
        used items
    else ([], used)
  | _ => ([], used)

def check_dependencies (mode : Mode) (anchors : Anchors) (used : List String)
    (node : Node) : List Warning × List String :=
  match node with
  | .mapNode tag ps _ _ =>
    if tag == yamlTag "map" then
      runChecks
        (fun used kv =>
          match kv.2 with
          | Node.mapNode t dps _ _ =>
            if t == yamlTag "map" then
              runChecks
                (fun used dkv =>
                  if isStrKeyNamed dkv.1 "common" then
                    check_common mode anchors used dkv.2
                  else if isStrKeyNamed dkv.1 "specific" then
                    check_specific mode anchors used dkv.2
                  else ([], used))
                used dps
            else ([], used)
          | _ => ([], used))
        used ps
    else ([], used)
  | _ => ([], used)

def check_root (mode : Mode) (anchors : Anchors) (used : List String)
    (node : Node) : List Warning × List String :=
  match node with
  | .mapNode tag ps _ _ =>
    if tag == yamlTag "map" then
      runChecks
        (fun used kv =>
          if isStrKeyNamed kv.1 "dependencies" then
            check_dependencies mode anchors used kv.2
          else ([], used))
        used ps
    else ([], used)
  | _ => ([], used)

/-- Condition under which check_package_spec reaches the anchor logic: a
string scalar whose text parses as a requirement with a tracked name. -/
def isEvaluated : Node → Bool
  | .scalar tag v _ _ =>
    tag == yamlTag "str" &&
      (match parseReq v with
       | some req => isTrackedPackage req.name
       | none => false)
  | _ => false

/-! Candidate requirement nodes per the spec's two fixed schema paths,
in document order: root(map).dependencies(map).*(map).common(seq).*(map)
.packages(seq).* and root(map).dependencies(map).*(map).specific(seq)
.*(map).matrices(seq).*(map).packages(seq).*. -/

def packagesCandidates : Node → List Node
  | .seqNode tag items _ _ => if tag == yamlTag "seq" then items else []
  | _ => []

def packagesOfPairs (key : String) (ps : List (Node × Node)) : List Node :=
  ps.flatMap fun kv => if isStrKeyNamed kv.1 key then packagesCandidates kv.2 else []

def commonCandidates : Node → List Node
  | .seqNode tag items _ _ =>
    if tag == yamlTag "seq" then
      items.flatMap fun ds =>
        match ds with
        | Node.mapNode t ps _ _ =>
          if t == yamlTag "map" then packagesOfPairs "packages" ps else []
        | _ => []
    else []
  | _ => []

def matricesCandidates : Node → List Node
  | .seqNode tag items _ _ =>
    if tag == yamlTag "seq" then
      items.flatMap fun item =>
        match item with
        | Node.mapNode t ps _ _ =>
          if t == yamlTag "map" then packagesOfPairs "packages" ps else []
        | _ => []
    else []
  | _ => []

def specificCandidates : Node → List Node
  | .seqNode tag items _ _ =>
    if tag == yamlTag "seq" then
      items.flatMap fun mm =>
        match mm with
        | Node.mapNode t ps _ _ =>
          if t == yamlTag "map" then
            ps.flatMap fun kv =>
              if isStrKeyNamed kv.1 "matrices" then matricesCandidates kv.2 else []
          else []
        | _ => []
    else []
  | _ => []

def dependenciesCandidates : Node → List Node
  | .mapNode tag ps _ _ =>
    if tag == yamlTag "map" then
      ps.flatMap fun kv =>
        match kv.2 with
        | Node.mapNode t dps _ _ =>
          if t == yamlTag "map" then
            dps.flatMap fun dkv =>
              if isStrKeyNamed dkv.1 "common" then commonCandidates dkv.2
              else if isStrKeyNamed dkv.1 "specific" then specificCandidates dkv.2
              else []
          else []
        | _ => []
    else []
  | _ => []

def rootCandidates : Node → List Node
  | .mapNode tag ps _ _ =>
    if tag == yamlTag "map" then
      ps.flatMap fun kv =>
        if isStrKeyNamed kv.1 "dependencies" then dependenciesCandidates kv.2 else []
    else []
  | _ => []

/-- Shape of a clause in the normal form produced by parseClause: a valid
comparison operator followed by a nonempty version literal that starts
with an alphanumeric character. -/
def wfClause (cs : List Char) : Prop :=
  ∃ op ver, cs = op ++ ver ∧ op ∈ validOps ∧ (∀ c ∈ ver, isVersionChar c = true) ∧
    ∃ c t, ver = c :: t ∧ c.isAlphanum = true

/-! The loader and the entry point. -/

/-- Modelled from the spec: the AnchorPreservingLoader composes each
embedded YAML document and appends one snapshot of the anchor table per
composed document; a stream holding no document at all (for example the
empty string) composes zero documents and contributes no snapshot, and
get_single_node returns its root only when one document exists. -/
structure ComposedDoc where
  root : Node
  anchors : Anchors
deriving Repr

/-- Translation of check_alpha_spec over the loader's composed documents:
document_anchors is indexed at position zero before any other use, so a
stream with zero composed documents raises IndexError; otherwise the walk
runs on the single document's root with its anchor table and a fresh
used-anchor set. -/
def check_alpha_spec (mode : Mode) (docs : List ComposedDoc) :
    Except String (List Warning) :=
  match docs with
  | [] => Except.error "IndexError"
  | d :: _ => Except.ok (check_root mode d.anchors [] d.root).1

/-! Properties of the SpecPriority comparator and of the canonical
serialization order. -/

lemma charListLt_irrefl : ∀ l : List Char, charListLt l l = false
  | [] => rfl
  | a :: as => by simp [charListLt, charListLt_irrefl as]

lemma charListLt_asymm : ∀ a b : List Char, charListLt a b = true → charListLt b a = false
  | [], [], h => by simp [charListLt] at h
  | [], _ :: _, _ => by simp [charListLt]
  | _ :: _, [], h => by simp [charListLt] at h
  | x :: xs, y :: ys, h => by
    by_cases hxy : x < y
    · simp [charListLt, asymm hxy, hxy]
    · by_cases hyx : y < x
      · simp [charListLt, hxy, hyx] at h
      · simp only [charListLt, if_neg hxy, if_neg hyx] at h
        simp [charListLt, hxy, hyx, charListLt_asymm xs ys h]

lemma charListLt_trans :
    ∀ a b c : List Char, charListLt a b = true → charListLt b c = true → charListLt a c = true
  | [], b, [], hab, hbc => by
    cases b <;> simp [charListLt] at hab hbc
  | [], _ :: _, _ :: _, _, _ => by simp [charListLt]
  | [], [], _ :: _, _, _ => by simp [charListLt]
  | _ :: _, [], _, hab, _ => by simp [charListLt] at hab
  | _ :: _, _ :: _, [], _, hbc => by simp [charListLt] at hbc
  | x :: xs, y :: ys, z :: zs, hab, hbc => by
    by_cases hxy : x < y
    · by_cases hyz : y < z
      · simp [charListLt, lt_trans hxy hyz]
      · by_cases hzy : z < y
        · simp [charListLt, hyz, hzy] at hbc
        · have : y = z := le_antisymm (not_lt.mp hzy) (not_lt.mp hyz)
          subst this
          simp [charListLt, hxy]
    · by_cases hyx : y < x
      · simp [charListLt, hxy, hyx] at hab
      · have hxey : x = y := le_antisymm (not_lt.mp hyx) (not_lt.mp hxy)
        subst hxey
        simp only [charListLt, if_neg hxy, if_neg hyx] at hab
        by_cases hyz : x < z
        · simp [charListLt, hyz]
        · by_cases hzy : z < x
          · simp [charListLt, hyz, hzy] at hbc
          · simp only [charListLt, if_neg hyz, if_neg hzy] at hbc ⊢
            exact charListLt_trans xs ys zs hab hbc

lemma charListLt_total :
    ∀ a b : List Char, charListLt a b = false → charListLt b a = false → a = b
  | [], [], _, _ => rfl
  | [], _ :: _, hab, _ => by simp [charListLt] at hab
  | _ :: _, [], _, hba => by simp [charListLt] at hba
  | x :: xs, y :: ys, hab, hba => by
    by_cases hxy : x < y
    · simp [charListLt, hxy] at hab
    · by_cases hyx : y < x
      · simp [charListLt, hyx] at hba
      · have hxey : x = y := le_antisymm (not_lt.mp hyx) (not_lt.mp hxy)
        subst hxey
        simp only [charListLt, if_neg hxy] at hab hba
        rw [charListLt_total xs ys hab hba]

/-- Characterization of specLt: a clause is strictly less than another
exactly when it is not the sentinel and the other is the sentinel or has
a lexically greater stripped text. -/
lemma specLt_eq (a b : String) :
    specLt a b =
      (decide (a ≠ ALPHA_SPECIFIER) &&
        (decide (b = ALPHA_SPECIFIER) ||
          charListLt (sort_str a).toList (sort_str b).toList)) := by
  by_cases hab : a = b
  · subst hab
    by_cases ha : a = ALPHA_SPECIFIER
    · simp [specLt, ha]
    · simp [specLt, ha, charListLt_irrefl]
  · by_cases ha : a = ALPHA_SPECIFIER
    · by_cases hb : b = ALPHA_SPECIFIER
      · exact absurd (ha.trans hb.symm) hab
      · simp [specLt, hab, ha]
    · by_cases hb : b = ALPHA_SPECIFIER
      · simp [specLt, hab, ha, hb]
      · simp [specLt, hab, ha, hb]

lemma specLt_irrefl (a : String) : specLt a a = false := by
  simp [specLt]

lemma specLt_alpha_left (b : String) : specLt ALPHA_SPECIFIER b = false := by
  simp [specLt_eq]

lemma specLt_alpha_right {x : String} (h : specLt x ALPHA_SPECIFIER = false) :
    x = ALPHA_SPECIFIER := by
  rw [specLt_eq] at h
  simp at h
  exact h

lemma specLt_asymm {a b : String} (h : specLt a b = true) : specLt b a = false := by
  rw [specLt_eq] at h ⊢
  simp only [Bool.and_eq_true, Bool.or_eq_true, decide_eq_true_eq] at h
  obtain ⟨ha, hd⟩ := h
  by_cases hb : b = ALPHA_SPECIFIER
  · simp [hb]
  · rcases hd with hd | hd
    · exact absurd hd hb
    · have hba : charListLt (sort_str b).toList (sort_str a).toList = false :=
        charListLt_asymm _ _ hd
      simp only [Bool.and_eq_false_iff, Bool.or_eq_false_iff]
      exact Or.inr ⟨by simp [ha], hba⟩

/-- Negative transitivity helper: a strictly smaller clause is smaller
than any intermediate clause or that intermediate clause is smaller than
the larger one. -/
lemma specLt_resolve (x b a : String) (h : specLt x a = true) :
    specLt x b = true ∨ specLt b a = true := by
  rw [specLt_eq] at h ⊢
  rw [specLt_eq (a := b)]
  simp only [Bool.and_eq_true, Bool.or_eq_true, decide_eq_true_eq] at h ⊢
  obtain ⟨hx, hd⟩ := h
  by_cases hb : b = ALPHA_SPECIFIER
  · exact Or.inl ⟨hx, Or.inl hb⟩
  · rcases hd with ha | hlt
    · exact Or.inr ⟨hb, Or.inl ha⟩
    · cases hxb : charListLt (sort_str x).toList (sort_str b).toList
      · cases hbx : charListLt (sort_str b).toList (sort_str x).toList
        · have heq := charListLt_total _ _ hbx hxb
          exact Or.inr ⟨hb, Or.inr (heq ▸ hlt)⟩
        · exact Or.inr ⟨hb, Or.inr (charListLt_trans _ _ _ hbx hlt)⟩
      · exact Or.inl ⟨hx, Or.inr rfl⟩

lemma insertSpec_perm (a : String) : ∀ l : List String, (insertSpec a l).Perm (a :: l)
  | [] => List.Perm.refl _
  | b :: bs => by
    unfold insertSpec
    split
    · exact (((insertSpec_perm a bs).cons b).trans (List.Perm.swap a b bs))
    · exact List.Perm.refl _

lemma sortSpecifiers_perm : ∀ l : List String, (sortSpecifiers l).Perm l
  | [] => List.Perm.refl _
  | a :: as => (insertSpec_perm a (sortSpecifiers as)).trans ((sortSpecifiers_perm as).cons a)

lemma insertSpec_pairwise (a : String) :
    ∀ {l : List String}, l.Pairwise (fun x y => specLt y x = false) →
      (insertSpec a l).Pairwise (fun x y => specLt y x = false)
  | [], _ => by simp [insertSpec]
  | b :: bs, h => by
    rw [List.pairwise_cons] at h
    obtain ⟨hb, hbs⟩ := h
    unfold insertSpec
    split
    · rename_i hba
      rw [List.pairwise_cons]
      refine ⟨?_, insertSpec_pairwise a hbs⟩
      intro x hx
      have hx' := (insertSpec_perm a bs).mem_iff.mp hx
      rcases List.mem_cons.mp hx' with rfl | hx'
      · exact specLt_asymm hba
      · exact hb x hx'
    · rename_i hba
      rw [List.pairwise_cons]
      refine ⟨?_, List.pairwise_cons.mpr ⟨hb, hbs⟩⟩
      intro x hx
      rw [Bool.not_eq_true] at hba
      rcases List.mem_cons.mp hx with rfl | hxbs
      · exact hba
      · by_contra hcon
        have hxa : specLt x a = true := by
          cases hxa : specLt x a
          · exact absurd hxa hcon
          · rfl
        rcases specLt_resolve x b a hxa with h1 | h1
        · rw [hb x hxbs] at h1
          exact Bool.false_ne_true h1
        · rw [hba] at h1
          exact Bool.false_ne_true h1

lemma sortSpecifiers_pairwise :
    ∀ l : List String, (sortSpecifiers l).Pairwise (fun x y => specLt y x = false)
  | [] => List.Pairwise.nil
  | a :: as => insertSpec_pairwise a (sortSpecifiers_pairwise as)

lemma pairwise_getLast_alpha :
    ∀ l : List String, l.Pairwise (fun x y => specLt y x = false) →
      ALPHA_SPECIFIER ∈ l → l.getLast? = some ALPHA_SPECIFIER
  | [], _, hm => absurd hm (List.not_mem_nil _)
  | [x], _, hm => by
    have hx : ALPHA_SPECIFIER = x := List.mem_singleton.mp hm
    simp [← hx]
  | x :: y :: t, hp, hm => by
    rw [List.getLast?_cons_cons]
    apply pairwise_getLast_alpha (y :: t) hp.tail
    rcases List.mem_cons.mp hm with heq | hm
    · have hy : specLt y x = false :=
        (List.pairwise_cons.mp hp).1 y (List.mem_cons_self y t)
      rw [← heq] at hy
      rw [specLt_alpha_right hy]
      exact List.mem_cons_self _ _
    · exact hm

lemma sortSpecifiers_last_alpha {l : List String} (h : ALPHA_SPECIFIER ∈ l) :
    (sortSpecifiers l).getLast? = some ALPHA_SPECIFIER :=
  pairwise_getLast_alpha _ (sortSpecifiers_pairwise l)
    ((sortSpecifiers_perm l).mem_iff.mpr h)

/-- C3: the SpecPriority ordering treats clauses with identical text as
equal, orders distinct non-sentinel clauses lexically by their text with
the comparison-operator characters stripped, and the canonical
serialization order is a permutation of the input set that always places
the sentinel clause last whenever it is present, regardless of insertion
order. -/
theorem spec_priority_canonical (a b : String) (l : List String) :
    specLt a a = false ∧
    (a ≠ ALPHA_SPECIFIER → b ≠ ALPHA_SPECIFIER →
      specLt a b = charListLt (sort_str a).toList (sort_str b).toList) ∧
    (sortSpecifiers l).Perm l ∧
    (ALPHA_SPECIFIER ∈ l → (sortSpecifiers l).getLast? = some ALPHA_SPECIFIER) := by
  refine ⟨specLt_irrefl a, ?_, sortSpecifiers_perm l, fun h => sortSpecifiers_last_alpha h⟩
  intro ha hb
  rw [specLt_eq]
  simp [ha, hb]

/-- Witness for C3 at concrete clauses and a concrete insertion order. -/
theorem spec_priority_canonical_witness :
    specLt ">=24.0" ">=24.0" = false ∧
    specLt ">=24.0" "<25" = charListLt (sort_str ">=24.0").toList (sort_str "<25").toList ∧
    (sortSpecifiers [">=0.0.0a0", ">=24.0"]).Perm [">=0.0.0a0", ">=24.0"] ∧
    (sortSpecifiers [">=0.0.0a0", ">=24.0"]).getLast? = some ALPHA_SPECIFIER := by
  have h := spec_priority_canonical ">=24.0" "<25" [">=0.0.0a0", ">=24.0"]
  exact ⟨h.1, h.2.1 (by decide) (by decide), h.2.2.1, h.2.2.2 (by decide)⟩

/-! Generic helper lemmas about takeWhile, dropWhile and the custom
split and join operations. -/

lemma takeWhile_all {α : Type} {p : α → Bool} :
    ∀ {l : List α}, (∀ c ∈ l, p c = true) → l.takeWhile p = l
  | [], _ => rfl
  | c :: t, h => by
    rw [List.takeWhile_cons, if_pos (h c (List.mem_cons_self c t))]
    rw [takeWhile_all (fun x hx => h x (List.mem_cons_of_mem c hx))]

lemma dropWhile_all {α : Type} {p : α → Bool} :
    ∀ {l : List α}, (∀ c ∈ l, p c = true) → l.dropWhile p = []
  | [], _ => rfl
  | c :: t, h => by
    rw [List.dropWhile_cons, if_pos (h c (List.mem_cons_self c t))]
    exact dropWhile_all (fun x hx => h x (List.mem_cons_of_mem c hx))

lemma dropWhile_eq_self {α : Type} {p : α → Bool} :
    ∀ {l : List α}, (∀ c ∈ l, p c = false) → l.dropWhile p = l
  | [], _ => rfl
  | c :: t, h => by
    rw [List.dropWhile_cons, if_neg]
    rw [h c (List.mem_cons_self c t)]
    exact Bool.false_ne_true

lemma takeWhile_append_all {α : Type} {p : α → Bool} :
    ∀ {xs : List α} (ys : List α), (∀ c ∈ xs, p c = true) →
      (xs ++ ys).takeWhile p = xs ++ ys.takeWhile p
  | [], ys, _ => rfl
  | c :: t, ys, h => by
    rw [List.cons_append, List.takeWhile_cons, if_pos (h c (List.mem_cons_self c t)),
      takeWhile_append_all ys (fun x hx => h x (List.mem_cons_of_mem c hx)), List.cons_append]

lemma dropWhile_append_all {α : Type} {p : α → Bool} :
    ∀ {xs : List α} (ys : List α), (∀ c ∈ xs, p c = true) →
      (xs ++ ys).dropWhile p = ys.dropWhile p
  | [], _, _ => rfl
  | c :: t, ys, h => by
    rw [List.cons_append, List.dropWhile_cons, if_pos (h c (List.mem_cons_self c t))]
    exact dropWhile_append_all ys (fun x hx => h x (List.mem_cons_of_mem c hx))

lemma takeWhile_cons_false {α : Type} {p : α → Bool} {c : α} (t : List α)
    (h : p c = false) : (c :: t).takeWhile p = [] := by
  rw [List.takeWhile_cons, if_neg]
  rw [h]
  exact Bool.false_ne_true

lemma dropWhile_cons_false {α : Type} {p : α → Bool} {c : α} (t : List α)
    (h : p c = false) : (c :: t).dropWhile p = c :: t := by
  rw [List.dropWhile_cons, if_neg]
  rw [h]
  exact Bool.false_ne_true

lemma trimChars_eq_self {cs : List Char} (h : ∀ c ∈ cs, isWs c = false) :
    trimChars cs = cs := by
  unfold trimChars
  rw [dropWhile_eq_self h, dropWhile_eq_self (fun c hc => h c (List.mem_reverse.mp hc)),
    List.reverse_reverse]

lemma splitOnChar_nil (sep : Char) : splitOnChar sep [] = [[]] := rfl

lemma splitOnChar_cons (sep c : Char) (cs : List Char) :
    splitOnChar sep (c :: cs) =
      (if c = sep then [] :: splitOnChar sep cs
       else
         match splitOnChar sep cs with
         | h :: t => (c :: h) :: t
         | [] => [[c]]) := rfl

lemma splitOnChar_ne_nil (sep : Char) : ∀ cs : List Char, splitOnChar sep cs ≠ []
  | [] => by simp [splitOnChar_nil]
  | c :: cs => by
    rw [splitOnChar_cons]
    split
    · simp
    · match hs : splitOnChar sep cs with
      | h :: t => simp
      | [] => simp

lemma splitOnChar_sepfree (sep : Char) :
    ∀ {cs : List Char}, (∀ c ∈ cs, c ≠ sep) → splitOnChar sep cs = [cs]
  | [], _ => rfl
  | c :: cs, h => by
    rw [splitOnChar_cons, if_neg (h c (List.mem_cons_self c cs)),
      splitOnChar_sepfree sep (fun x hx => h x (List.mem_cons_of_mem c hx))]

lemma splitOnChar_append_sep (sep : Char) :
    ∀ {xs : List Char} (rest : List Char), (∀ c ∈ xs, c ≠ sep) →
      splitOnChar sep (xs ++ sep :: rest) = xs :: splitOnChar sep rest
  | [], rest, _ => by
    rw [List.nil_append, splitOnChar_cons, if_pos rfl]
  | c :: xs, rest, h => by
    rw [List.cons_append, splitOnChar_cons, if_neg (h c (List.mem_cons_self c xs)),
      splitOnChar_append_sep sep rest (fun x hx => h x (List.mem_cons_of_mem c hx))]

lemma joinChar_cons (sep : Char) (x : List Char) (xs : List (List Char)) :
    joinChar sep (x :: xs) = x ++ (if xs.isEmpty then [] else sep :: joinChar sep xs) := by
  cases xs
  · simp [joinChar]
  · rfl

lemma splitOnChar_joinChar (sep : Char) :
    ∀ {l : List (List Char)}, l ≠ [] → (∀ x ∈ l, ∀ c ∈ x, c ≠ sep) →
      splitOnChar sep (joinChar sep l) = l
  | [], h, _ => absurd rfl h
  | [x], _, hc => splitOnChar_sepfree sep (hc x (List.mem_singleton_self x))
  | x :: y :: xs, _, hc => by
    show splitOnChar sep (x ++ sep :: joinChar sep (y :: xs)) = _
    rw [splitOnChar_append_sep sep _ (hc x (List.mem_cons_self x _)),
      splitOnChar_joinChar sep (by simp) (fun z hz => hc z (List.mem_cons_of_mem x hz))]

lemma mem_joinChar {sep : Char} :
    ∀ {l : List (List Char)} {c : Char}, c ∈ joinChar sep l → c = sep ∨ ∃ x ∈ l, c ∈ x
  | [], c, h => absurd h (List.not_mem_nil c)
  | [x], c, h => Or.inr ⟨x, List.mem_singleton_self x, h⟩
  | x :: y :: xs, c, h => by
    rcases List.mem_append.mp h with h | h
    · exact Or.inr ⟨x, List.mem_cons_self x _, h⟩
    · rcases List.mem_cons.mp h with rfl | h
      · exact Or.inl rfl
      · rcases mem_joinChar h with h | ⟨z, hz, hcz⟩
        · exact Or.inl h
        · exact Or.inr ⟨z, List.mem_cons_of_mem x hz, hcz⟩

/-! Character-class facts used by the round-trip arguments. -/

lemma isOpChar_cases {c : Char} (h : isOpChar c = true) :
    c = '<' ∨ c = '>' ∨ c = '=' ∨ c = '!' ∨ c = '~' := by
  simp only [isOpChar, Bool.or_eq_true, decide_eq_true_eq] at h
  tauto

lemma isNameChar_cases {c : Char} (h : isNameChar c = true) :
    c.isAlphanum = true ∨ c = '.' ∨ c = '_' ∨ c = '-' := by
  simp only [isNameChar, Bool.or_eq_true, decide_eq_true_eq] at h
  tauto

lemma isVersionChar_cases {c : Char} (h : isVersionChar c = true) :
    c.isAlphanum = true ∨ c = '.' ∨ c = '*' ∨ c = '+' ∨ c = '-' ∨ c = '_' ∨ c = '!' := by
  simp only [isVersionChar, Bool.or_eq_true, decide_eq_true_eq] at h
  tauto

lemma isAlphanum_facts {c : Char} (h : c.isAlphanum = true) :
    isWs c = false ∧ isOpChar c = false ∧ c ≠ ',' ∧ c ≠ ';' ∧ c ≠ '[' := by
  refine ⟨?_, ?_, ?_, ?_, ?_⟩
  · cases hw : isWs c
    · rfl
    · rcases (by simpa [isWs] using hw : c = ' ' ∨ c = '\t') with rfl | rfl <;> simp at h
  · cases ho : isOpChar c
    · rfl
    · rcases isOpChar_cases ho with rfl | rfl | rfl | rfl | rfl <;> simp at h
  · intro hr
    subst hr
    simp at h
  · intro hr
    subst hr
    simp at h
  · intro hr
    subst hr
    simp at h

lemma isOpChar_facts {c : Char} (h : isOpChar c = true) :
    isWs c = false ∧ isNameChar c = false ∧ c ≠ ',' ∧ c ≠ ';' ∧ c ≠ '[' := by
  rcases isOpChar_cases h with rfl | rfl | rfl | rfl | rfl <;> exact ⟨rfl, rfl, by decide, by decide, by decide⟩

lemma isVersionChar_facts {c : Char} (h : isVersionChar c = true) :
    isWs c = false ∧ c ≠ ',' ∧ c ≠ ';' ∧ c ≠ '[' := by
  rcases isVersionChar_cases h with ha | rfl | rfl | rfl | rfl | rfl | rfl
  · obtain ⟨h1, _, h3, h4, h5⟩ := isAlphanum_facts ha
    exact ⟨h1, h3, h4, h5⟩
  all_goals exact ⟨rfl, by decide, by decide, by decide⟩

lemma isNameChar_facts {c : Char} (h : isNameChar c = true) :
    isWs c = false ∧ c ≠ ',' ∧ c ≠ ';' ∧ c ≠ '[' := by
  rcases isNameChar_cases h with ha | rfl | rfl | rfl
  · obtain ⟨h1, _, h3, h4, h5⟩ := isAlphanum_facts ha
    exact ⟨h1, h3, h4, h5⟩
  all_goals exact ⟨rfl, by decide, by decide, by decide⟩

/-! Wellformedness of parsed specifier clauses, and the round-trip
property of the requirement grammar on reconstructed requirement
strings. -/

lemma validOps_all_op {op : List Char} (h : op ∈ validOps) :
    ∀ c ∈ op, isOpChar c = true := by
  simp only [validOps, List.mem_cons, List.not_mem_nil, or_false] at h
  rcases h with rfl | rfl | rfl | rfl | rfl | rfl | rfl | rfl <;> decide

lemma validOps_ne_nil {op : List Char} (h : op ∈ validOps) : op ≠ [] := by
  simp only [validOps, List.mem_cons, List.not_mem_nil, or_false] at h
  rcases h with rfl | rfl | rfl | rfl | rfl | rfl | rfl | rfl <;> decide

lemma wfClause_chars {cs : List Char} (h : wfClause cs) :
    ∀ c ∈ cs, isWs c = false ∧ c ≠ ',' ∧ c ≠ ';' ∧ c ≠ '[' := by
  obtain ⟨op, ver, rfl, hop, hver, _⟩ := h
  intro c hc
  rcases List.mem_append.mp hc with hc | hc
  · obtain ⟨h1, _, h3, h4, h5⟩ := isOpChar_facts (validOps_all_op hop c hc)
    exact ⟨h1, h3, h4, h5⟩
  · exact isVersionChar_facts (hver c hc)

lemma wfClause_head {cs : List Char} (h : wfClause cs) :
    ∃ c t, cs = c :: t ∧ isOpChar c = true := by
  obtain ⟨op, ver, rfl, hop, _, _⟩ := h
  match op, validOps_ne_nil hop with
  | c :: t, _ =>
    exact ⟨c, t ++ ver, rfl, validOps_all_op hop c (List.mem_cons_self c t)⟩

lemma parseClause_some_wf {cs out : List Char} (h : parseClause cs = some out) :
    wfClause out := by
  simp only [parseClause] at h
  split at h
  · rename_i hcond
    rw [Bool.and_eq_true, Bool.and_eq_true] at hcond
    obtain ⟨⟨hop, hall⟩, hhead⟩ := hcond
    rw [Option.some_inj] at h
    subst h
    set ver := trimChars ((trimChars cs).dropWhile isOpChar) with hver
    match hv : ver, hhead with
    | c :: t, hhead =>
      refine ⟨_, c :: t, rfl, ?_, ?_, c, t, rfl, by simpa using hhead⟩
      · have := List.elem_iff.mp hop
        simpa using this
      · intro x hx
        exact List.all_eq_true.mp hall x hx
  · exact absurd h (by simp)

lemma parseClause_self {cs : List Char} (h : wfClause cs) : parseClause cs = some cs := by
  obtain ⟨op, ver, rfl, hop, hver, c, t, hvc, hca⟩ := h
  have hopc := validOps_all_op hop
  have hnws : ∀ x ∈ op ++ ver, isWs x = false := fun x hx => (wfClause_chars ⟨op, ver, rfl, hop, hver, c, t, hvc, hca⟩ x hx).1
  have htake : (op ++ ver).takeWhile isOpChar = op := by
    rw [takeWhile_append_all ver hopc, hvc, takeWhile_cons_false t (isAlphanum_facts hca).2.1]
    simp
  have hdrop : (op ++ ver).dropWhile isOpChar = ver := by
    rw [dropWhile_append_all ver hopc, hvc, dropWhile_cons_false t (isAlphanum_facts hca).2.1]
  simp only [parseClause]
  rw [trimChars_eq_self hnws, htake, hdrop,
    trimChars_eq_self (fun x hx => (isVersionChar_facts (hver x hx)).1)]
  rw [if_pos]
  rw [Bool.and_eq_true, Bool.and_eq_true]
  refine ⟨⟨?_, ?_⟩, ?_⟩
  · exact List.elem_iff.mpr hop
  · exact List.all_eq_true.mpr hver
  · rw [hvc]
    simpa using hca

lemma parseClauses_some_wf :
    ∀ {l out : List (List Char)}, parseClauses l = some out → ∀ c ∈ out, wfClause c
  | [], out, h => by
    rw [parseClauses, Option.some_inj] at h
    subst h
    intro c hc
    exact absurd hc (List.not_mem_nil c)
  | x :: xs, out, h => by
    rw [parseClauses] at h
    match hx : parseClause x, hxs : parseClauses xs with
    | some r, some rs =>
      rw [hx, hxs, Option.some_inj] at h
      subst h
      intro c hc
      rcases List.mem_cons.mp hc with rfl | hc
      · exact parseClause_some_wf hx
      · exact parseClauses_some_wf hxs c hc
    | some r, none => rw [hx, hxs] at h; exact absurd h (by simp)
    | none, some rs => rw [hx, hxs] at h; exact absurd h (by simp)
    | none, none => rw [hx, hxs] at h; exact absurd h (by simp)

lemma parseClauses_self :
    ∀ {l : List (List Char)}, (∀ c ∈ l, wfClause c) → parseClauses l = some l
  | [], _ => rfl
  | x :: xs, h => by
    rw [parseClauses, parseClause_self (h x (List.mem_cons_self x xs)),
      parseClauses_self (fun c hc => h c (List.mem_cons_of_mem x hc))]

lemma toList_mk (l : List Char) : (String.mk l).toList = l := rfl

lemma mk_toList (s : String) : String.mk s.toList = s := rfl

lemma validName_all {cs : List Char} (h : validName cs = true) :
    ∀ c ∈ cs, isNameChar c = true := by
  match cs, h with
  | c :: rest, h =>
    rw [validName, Bool.and_eq_true, Bool.and_eq_true] at h
    exact List.all_eq_true.mp h.2

lemma parseSpecList_some_wf {cs : List Char} {out : List (List Char)}
    (h : parseSpecList cs = some out) : ∀ c ∈ out, wfClause c := by
  unfold parseSpecList at h
  split at h
  · rw [Option.some_inj] at h
    subst h
    intro c hc
    exact absurd hc (List.not_mem_nil c)
  · exact parseClauses_some_wf h

/-- Shape facts extracted from a successful requirement parse: the name
passes validName and every parsed specifier clause is wellformed. -/
lemma parseReq_shape {s : String} {req : Req} (h : parseReq s = some req) :
    validName req.name.toList = true ∧ ∀ sp ∈ req.specs, wfClause sp.toList := by
  simp only [parseReq] at h
  split at h
  · rename_i hv
    split at h
    · exact absurd h (by simp)
    · rename_i extras rest1 hx
      split at h
      · exact absurd h (by simp)
      · rename_i clauses hsl
        have hcl : ∀ c ∈ clauses, wfClause c := parseSpecList_some_wf hsl
        split at h
        · rw [Option.some_inj] at h
          subst h
          refine ⟨hv, ?_⟩
          intro sp hsp
          obtain ⟨c, hc, rfl⟩ := List.mem_map.mp hsp
          exact hcl c hc
        · split at h
          · exact absurd h (by simp)
          · rw [Option.some_inj] at h
            subst h
            refine ⟨hv, ?_⟩
            intro sp hsp
            obtain ⟨c, hc, rfl⟩ := List.mem_map.mp hsp
            exact hcl c hc
  · exact absurd h (by simp)

lemma map_mk_toList : ∀ l : List String, List.map String.mk (List.map String.toList l) = l
  | [] => rfl
  | s :: t => by rw [List.map_cons, List.map_cons, mk_toList, map_mk_toList t]

/-- Round trip: a requirement string reconstructed from a valid name and
wellformed clauses parses back to exactly that name and those clauses,
with no extras and no marker. -/
lemma parseReq_reconstruct (name : List Char) (cls : List String)
    (hn : validName name = true)
    (hwf : ∀ sp ∈ cls, wfClause sp.toList) :
    parseReq (String.mk name ++ String.mk (joinChar ',' (cls.map String.toList))) =
      some ⟨String.mk name, [], cls, none⟩ := by
  have hnm : ∀ c ∈ name, isNameChar c = true := validName_all hn
  match cls, hwf with
  | [], _ =>
    have hT : (String.mk name ++ String.mk (joinChar ',' (List.map String.toList []))).toList
        = name := by
      show (String.mk name ++ String.mk []).data = name
      rw [String.data_append]
      simp
    simp only [parseReq, hT]
    rw [trimChars_eq_self (fun c hc => (isNameChar_facts (hnm c hc)).1),
      takeWhile_all hnm, dropWhile_all hnm, if_pos hn]
    rfl
  | sp :: rest, hwf =>
    obtain ⟨hc, hct, hsp, hop⟩ := wfClause_head (hwf sp (List.mem_cons_self sp rest))
    set J := joinChar ',' (List.map String.toList (sp :: rest)) with hJ
    have hJcons : ∃ t, J = hc :: t := by
      rw [hJ, List.map_cons, joinChar_cons, hsp]
      exact ⟨_, rfl⟩
    obtain ⟨Jt, hJcons⟩ := hJcons
    have hJmem : ∀ c ∈ J, isWs c = false ∧ c ≠ ';' := by
      intro c hcJ
      rw [hJ] at hcJ
      rcases mem_joinChar hcJ with rfl | ⟨x, hx, hcx⟩
      · exact ⟨by decide, by decide⟩
      · obtain ⟨sp', hsp', rfl⟩ := List.mem_map.mp hx
        have hf := wfClause_chars (hwf sp' hsp') c hcx
        exact ⟨hf.1, hf.2.2.1⟩
    have hT : (String.mk name ++ String.mk J).toList = name ++ J := by
      show (String.mk name ++ String.mk J).data = name ++ J
      rw [String.data_append]
    have htrim : trimChars (name ++ J) = name ++ J := by
      apply trimChars_eq_self
      intro x hx
      rcases List.mem_append.mp hx with hx | hx
      · exact (isNameChar_facts (hnm x hx)).1
      · exact (hJmem x hx).1
    have hopf := isOpChar_facts hop
    have htake : (name ++ J).takeWhile isNameChar = name := by
      rw [takeWhile_append_all J hnm, hJcons, takeWhile_cons_false _ hopf.2.1, List.append_nil]
    have hdropn : (name ++ J).dropWhile isNameChar = J := by
      rw [dropWhile_append_all J hnm, hJcons, dropWhile_cons_false _ hopf.2.1]
    have hdropw : J.dropWhile isWs = J := by
      rw [hJcons]
      exact dropWhile_cons_false _ hopf.1
    have hpe : parseExtras J = some ([], J) := by
      rw [hJcons]
      simp only [parseExtras]
      rw [if_neg hopf.2.2.2.2]
    have hns : ∀ c ∈ J, decide (c ≠ ';') = true :=
      fun c hcJ => decide_eq_true (hJmem c hcJ).2
    have hss : splitSemi J = (J, none) := by
      simp only [splitSemi]
      rw [dropWhile_all hns]
      show ((J.takeWhile fun c => c ≠ ';'), (none : Option (List Char))) = (J, none)
      rw [takeWhile_all hns]
    have htrimJ : trimChars J = J := trimChars_eq_self (fun c hcJ => (hJmem c hcJ).1)
    have hJne : J ≠ [] := by
      rw [hJcons]
      exact List.cons_ne_nil _ _
    have hsplitJ : splitOnChar ',' J = List.map String.toList (sp :: rest) := by
      rw [hJ]
      apply splitOnChar_joinChar
      · simp
      · intro x hx c hcx
        obtain ⟨sp', hsp', rfl⟩ := List.mem_map.mp hx
        exact (wfClause_chars (hwf sp' hsp') c hcx).2.1
    have hwfmap : ∀ x ∈ List.map String.toList (sp :: rest), wfClause x := by
      intro x hx
      obtain ⟨sp', hsp', rfl⟩ := List.mem_map.mp hx
      exact hwf sp' hsp'
    have hps : parseSpecList J = some (List.map String.toList (sp :: rest)) := by
      unfold parseSpecList
      rw [if_neg (by rw [htrimJ]; exact hJne), hsplitJ, parseClauses_self hwfmap]
    simp only [parseReq, hT]
    rw [htrim, htake, hdropn, if_pos hn, hdropw, hpe]
    simp only [hss, hps, map_mk_toList]

/-! Policy-engine theorems: development and release behavior of
check_package_spec on tracked requirement nodes. -/

lemma hasAlpha_of_not_mem {l : List String} (h : ALPHA_SPECIFIER ∉ l) :
    (l.dedup).any (fun sp => sp == ALPHA_SPECIFIER) = false := by
  rw [← Bool.not_eq_true, List.any_eq_true]
  rintro ⟨x, hx, hbe⟩
  rw [beq_iff_eq] at hbe
  subst hbe
  exact h (List.mem_dedup.mp hx)

lemma hasAlpha_of_mem {l : List String} (h : ALPHA_SPECIFIER ∈ l) :
    (l.dedup).any (fun sp => sp == ALPHA_SPECIFIER) = true := by
  rw [List.any_eq_true]
  exact ⟨ALPHA_SPECIFIER, List.mem_dedup.mpr h, beq_self_eq_true _⟩

lemma alpha_not_mem_dedup {l : List String} (h : ALPHA_SPECIFIER ∉ l) :
    ALPHA_SPECIFIER ∉ l.dedup := fun hc => h (List.mem_dedup.mp hc)

lemma pyUnion_dedup_singleton {l : List String} {a : String} (h : a ∉ l) :
    pyUnion l.dedup [a] = l.dedup ++ [a] := by
  unfold pyUnion
  rw [List.dedup_eq_self]
  rw [List.nodup_append]
  refine ⟨List.nodup_dedup l, List.nodup_singleton a, ?_⟩
  intro x hx hxa
  rw [List.mem_singleton] at hxa
  subst hxa
  exact h (List.mem_dedup.mp hx)

/-- C1: on a tracked requirement node whose specifier set lacks the
sentinel, development mode emits exactly one warning "add alpha spec for
RAPIDS package name" whose fix replaces the whole node span by the
anchor text (when an anchor binds the node) followed by the name and the
canonical serialization of the specifier set with the sentinel added;
moreover that serialized set is a permutation of the original set plus
the sentinel, containing the sentinel exactly once. -/
theorem development_adds_alpha (anchors : Anchors) (used : List String)
    (v : String) (s e : Nat) (req : Req)
    (hp : parseReq v = some req)
    (htr : isTrackedPackage req.name = true)
    (ha : ALPHA_SPECIFIER ∉ req.specs)
    (hu : anchorNotUsed (lookupAnchor anchors (Node.scalar (yamlTag "str") v s e)) used = true) :
    check_package_spec Mode.development anchors used (Node.scalar (yamlTag "str") v s e) =
      ([{ span := (s, e),
          message := "add alpha spec for RAPIDS package " ++ req.name,
          replacement := some ((s, e),
            anchorText (lookupAnchor anchors (Node.scalar (yamlTag "str") v s e)) ++ req.name ++
              create_specifier_string (pyUnion req.specs.dedup [ALPHA_SPECIFIER])) }],
        addUsed (lookupAnchor anchors (Node.scalar (yamlTag "str") v s e)) used) ∧
    pyUnion req.specs.dedup [ALPHA_SPECIFIER] = req.specs.dedup ++ [ALPHA_SPECIFIER] ∧
    List.count ALPHA_SPECIFIER
      (sortSpecifiers (pyUnion req.specs.dedup [ALPHA_SPECIFIER])) = 1 ∧
    (sortSpecifiers (pyUnion req.specs.dedup [ALPHA_SPECIFIER])).Perm
      (ALPHA_SPECIFIER :: req.specs.dedup) := by
  have hun := pyUnion_dedup_singleton ha
  have hperm : (sortSpecifiers (pyUnion req.specs.dedup [ALPHA_SPECIFIER])).Perm
      (ALPHA_SPECIFIER :: req.specs.dedup) := by
    rw [hun]
    exact (sortSpecifiers_perm _).trans (List.perm_append_singleton _ _)
  refine ⟨?_, hun, ?_, hperm⟩
  · simp only [check_package_spec, beq_self_eq_true, if_true, hp, htr, hu,
      hasAlpha_of_not_mem ha, Bool.not_false]
  · rw [hperm.count_eq]
    rw [List.count_cons_self, List.count_eq_zero.mpr (alpha_not_mem_dedup ha)]

/-- Witness for C1 on the spec's concrete development-mode scenario. -/
theorem development_adds_alpha_witness :
    check_package_spec Mode.development [] [] (Node.scalar (yamlTag "str") "cudf>=24.0" 3 13) =
      ([{ span := (3, 13), message := "add alpha spec for RAPIDS package cudf",
          replacement := some ((3, 13), "cudf>=24.0,>=0.0.0a0") }], []) := by
  have h := development_adds_alpha [] [] "cudf>=24.0" 3 13
    ⟨"cudf", [], [">=24.0"], none⟩ (by decide) (by decide) (by decide) (by decide)
  exact h.1.trans (by decide)

/-- C2: on a tracked requirement node, release mode emits exactly one
warning "remove alpha spec for RAPIDS package name" whose fix carries
the specifier set with the sentinel removed when the sentinel is
present, and emits no warning when the sentinel is absent. -/
theorem release_removes_alpha (anchors : Anchors) (used : List String)
    (v : String) (s e : Nat) (req : Req)
    (hp : parseReq v = some req)
    (htr : isTrackedPackage req.name = true)
    (hu : anchorNotUsed (lookupAnchor anchors (Node.scalar (yamlTag "str") v s e)) used = true) :
    (ALPHA_SPECIFIER ∈ req.specs →
      check_package_spec Mode.release anchors used (Node.scalar (yamlTag "str") v s e) =
        ([{ span := (s, e),
            message := "remove alpha spec for RAPIDS package " ++ req.name,
            replacement := some ((s, e),
              anchorText (lookupAnchor anchors (Node.scalar (yamlTag "str") v s e)) ++ req.name ++
                create_specifier_string (pyDiff req.specs.dedup [ALPHA_SPECIFIER])) }],
          addUsed (lookupAnchor anchors (Node.scalar (yamlTag "str") v s e)) used) ∧
      (∀ x, x ∈ pyDiff req.specs.dedup [ALPHA_SPECIFIER] ↔
        x ∈ req.specs ∧ x ≠ ALPHA_SPECIFIER)) ∧
    (ALPHA_SPECIFIER ∉ req.specs →
      check_package_spec Mode.release anchors used (Node.scalar (yamlTag "str") v s e) =
        ([], addUsed (lookupAnchor anchors (Node.scalar (yamlTag "str") v s e)) used)) := by
  constructor
  · intro hin
    constructor
    · simp only [check_package_spec, beq_self_eq_true, if_true, hp, htr, hu,
        hasAlpha_of_mem hin]
    · intro x
      unfold pyDiff
      rw [List.mem_filter, List.mem_dedup]
      constructor
      · rintro ⟨hx, hc⟩
        refine ⟨hx, ?_⟩
        intro hxa
        subst hxa
        simp at hc
      · rintro ⟨hx, hxa⟩
        refine ⟨hx, ?_⟩
        simp [hxa]
  · intro hout
    simp only [check_package_spec, beq_self_eq_true, if_true, hp, htr, hu,
      hasAlpha_of_not_mem hout, Bool.false_eq_true, if_false]

/-- Witness for C2 on the spec's concrete release-mode scenarios. -/
theorem release_removes_alpha_witness :
    check_package_spec Mode.release [] []
        (Node.scalar (yamlTag "str") "cudf>=24.0,>=0.0.0a0" 3 23) =
      ([{ span := (3, 23), message := "remove alpha spec for RAPIDS package cudf",
          replacement := some ((3, 23), "cudf>=24.0") }], []) ∧
    check_package_spec Mode.release [] [] (Node.scalar (yamlTag "str") "cudf>=24.0" 3 13) =
      ([], []) := by
  have h1 := release_removes_alpha [] [] "cudf>=24.0,>=0.0.0a0" 3 23
    ⟨"cudf", [], [">=24.0", ">=0.0.0a0"], none⟩ (by decide) (by decide) (by decide)
  have h2 := release_removes_alpha [] [] "cudf>=24.0" 3 13
    ⟨"cudf", [], [">=24.0"], none⟩ (by decide) (by decide) (by decide)
  exact ⟨((h1.1 (by decide)).1).trans (by decide), (h2.2 (by decide)).trans (by decide)⟩

/-! Idempotence of the fixes. -/

lemma wfClause_alpha : wfClause ALPHA_SPECIFIER.toList :=
  ⟨['>', '='], ['0', '.', '0', '.', '0', 'a', '0'], by decide, by decide, by decide,
    '0', ['.', '0', '.', '0', 'a', '0'], by decide, by decide⟩

lemma alpha_mem_pyUnion (l : List String) :
    ALPHA_SPECIFIER ∈ pyUnion l [ALPHA_SPECIFIER] :=
  List.mem_dedup.mpr (List.mem_append_right _ (List.mem_singleton_self _))

lemma mem_pyUnion_alpha {x : String} {l : List String}
    (h : x ∈ pyUnion l.dedup [ALPHA_SPECIFIER]) : x ∈ l ∨ x = ALPHA_SPECIFIER := by
  unfold pyUnion at h
  rcases List.mem_append.mp (List.mem_dedup.mp h) with h | h
  · exact Or.inl (List.mem_dedup.mp h)
  · exact Or.inr (List.mem_singleton.mp h)

lemma alpha_not_mem_pyDiff (l : List String) :
    ALPHA_SPECIFIER ∉ pyDiff l [ALPHA_SPECIFIER] := by
  intro h
  have := (List.mem_filter.mp h).2
  simp at this

lemma mem_pyDiff {x : String} {l b : List String} (h : x ∈ pyDiff l b) : x ∈ l :=
  (List.mem_filter.mp h).1

/-- C4: applying a mode's fix and re-running the check in the same mode
on the fixed node text yields no further warning.  The fix text is the
optional anchor declaration followed by the name and the serialized
corrected specifier set; the anchor declaration is YAML syntax, so the
scalar value seen on the next run is the name plus the serialized set,
which is the value this statement re-checks, under any anchor table and
any used-anchor set. -/
theorem fix_idempotent (v : String) (req : Req)
    (hp : parseReq v = some req) (htr : isTrackedPackage req.name = true) :
    (∀ (anchors2 : Anchors) (used2 : List String) (s2 e2 : Nat),
      (check_package_spec Mode.development anchors2 used2
        (Node.scalar (yamlTag "str")
          (req.name ++ create_specifier_string (pyUnion req.specs.dedup [ALPHA_SPECIFIER]))
          s2 e2)).1 = []) ∧
    (∀ (anchors2 : Anchors) (used2 : List String) (s2 e2 : Nat),
      (check_package_spec Mode.release anchors2 used2
        (Node.scalar (yamlTag "str")
          (req.name ++ create_specifier_string (pyDiff req.specs.dedup [ALPHA_SPECIFIER]))
          s2 e2)).1 = []) := by
  obtain ⟨hn, hwf⟩ := parseReq_shape hp
  constructor
  · intro anchors2 used2 s2 e2
    have hwfS : ∀ sp ∈ sortSpecifiers (pyUnion req.specs.dedup [ALPHA_SPECIFIER]),
        wfClause sp.toList := by
      intro sp hsp
      rcases mem_pyUnion_alpha ((sortSpecifiers_perm _).mem_iff.mp hsp) with h | rfl
      · exact hwf sp h
      · exact wfClause_alpha
    have hrt := parseReq_reconstruct req.name.toList
      (sortSpecifiers (pyUnion req.specs.dedup [ALPHA_SPECIFIER])) hn hwfS
    rw [mk_toList] at hrt
    have hcs : String.mk (joinChar ','
          (List.map String.toList (sortSpecifiers (pyUnion req.specs.dedup [ALPHA_SPECIFIER])))) =
        create_specifier_string (pyUnion req.specs.dedup [ALPHA_SPECIFIER]) := rfl
    rw [hcs] at hrt
    have halpha : ALPHA_SPECIFIER ∈ sortSpecifiers (pyUnion req.specs.dedup [ALPHA_SPECIFIER]) :=
      (sortSpecifiers_perm _).mem_iff.mpr (alpha_mem_pyUnion _)
    cases hu2 : anchorNotUsed
        (lookupAnchor anchors2 (Node.scalar (yamlTag "str")
          (req.name ++ create_specifier_string (pyUnion req.specs.dedup [ALPHA_SPECIFIER]))
          s2 e2)) used2
    · simp only [check_package_spec, beq_self_eq_true, if_true, hrt, htr, hu2,
        Bool.false_eq_true, if_false]
    · simp only [check_package_spec, beq_self_eq_true, if_true, hrt, htr, hu2,
        hasAlpha_of_mem halpha, Bool.not_true, Bool.false_eq_true, if_false]
  · intro anchors2 used2 s2 e2
    have hwfS : ∀ sp ∈ sortSpecifiers (pyDiff req.specs.dedup [ALPHA_SPECIFIER]),
        wfClause sp.toList := by
      intro sp hsp
      exact hwf sp (List.mem_dedup.mp (mem_pyDiff ((sortSpecifiers_perm _).mem_iff.mp hsp)))
    have hrt := parseReq_reconstruct req.name.toList
      (sortSpecifiers (pyDiff req.specs.dedup [ALPHA_SPECIFIER])) hn hwfS
    rw [mk_toList] at hrt
    have hcs : String.mk (joinChar ','
          (List.map String.toList (sortSpecifiers (pyDiff req.specs.dedup [ALPHA_SPECIFIER])))) =
        create_specifier_string (pyDiff req.specs.dedup [ALPHA_SPECIFIER]) := rfl
    rw [hcs] at hrt
    have halpha : ALPHA_SPECIFIER ∉ sortSpecifiers (pyDiff req.specs.dedup [ALPHA_SPECIFIER]) := by
      intro hmem
      exact alpha_not_mem_pyDiff _ ((sortSpecifiers_perm _).mem_iff.mp hmem)
    cases hu2 : anchorNotUsed
        (lookupAnchor anchors2 (Node.scalar (yamlTag "str")
          (req.name ++ create_specifier_string (pyDiff req.specs.dedup [ALPHA_SPECIFIER]))
          s2 e2)) used2
    · simp only [check_package_spec, beq_self_eq_true, if_true, hrt, htr, hu2,
        Bool.false_eq_true, if_false]
    · simp only [check_package_spec, beq_self_eq_true, if_true, hrt, htr, hu2,
        hasAlpha_of_not_mem halpha, Bool.false_eq_true, if_false]

/-- Witness for C4 on the concrete development and release fixes of the
spec's scenarios. -/
theorem fix_idempotent_witness :
    (check_package_spec Mode.development [] []
      (Node.scalar (yamlTag "str")
        ("cudf" ++ create_specifier_string (pyUnion ([">=24.0"] : List String).dedup [ALPHA_SPECIFIER]))
        5 25)).1 = [] ∧
    (check_package_spec Mode.release [] []
      (Node.scalar (yamlTag "str")
        ("cudf" ++ create_specifier_string
          (pyDiff ([">=24.0", ">=0.0.0a0"] : List String).dedup [ALPHA_SPECIFIER]))
        5 25)).1 = [] := by
  have h1 := fix_idempotent "cudf>=24.0" ⟨"cudf", [], [">=24.0"], none⟩ (by decide) (by decide)
  have h2 := fix_idempotent "cudf>=24.0,>=0.0.0a0"
    ⟨"cudf", [], [">=24.0", ">=0.0.0a0"], none⟩ (by decide) (by decide)
  exact ⟨h1.1 [] [] 5 25, h2.2 [] [] 5 25⟩

/-! Anchor bookkeeping: an anchored node is evaluated at most once per
document walk. -/

lemma contains_eq_false_of_not_mem {l : List String} {a : String} (h : a ∉ l) :
    l.contains a = false := by
  rw [← Bool.not_eq_true]
  intro hc
  exact h (List.elem_iff.mp hc)

lemma check_package_spec_skip (mode : Mode) (anchors : Anchors) (used : List String)
    (node : Node) (a : String) (hb : lookupAnchor anchors node = some a) (hm : a ∈ used) :
    check_package_spec mode anchors used node = ([], used) := by
  match node with
  | Node.seqNode t items s e => rfl
  | Node.mapNode t ps s e => rfl
  | Node.scalar tag v s e =>
    have hanu : anchorNotUsed (lookupAnchor anchors (Node.scalar tag v s e)) used = false := by
      rw [hb]
      simp [anchorNotUsed, hm]
    cases hp : parseReq v with
    | none => simp [check_package_spec, hp]
    | some req => simp [check_package_spec, hp, hanu]

lemma check_package_spec_marks (mode : Mode) (anchors : Anchors) (used : List String)
    (tag v : String) (s e : Nat) (req : Req) (a : String)
    (htag : (tag == yamlTag "str") = true)
    (hp : parseReq v = some req)
    (htr : isTrackedPackage req.name = true)
    (hb : lookupAnchor anchors (Node.scalar tag v s e) = some a)
    (hm : a ∉ used) :
    (check_package_spec mode anchors used (Node.scalar tag v s e)).2 = a :: used := by
  have hanu : anchorNotUsed (some a) used = true := by
    simpa [anchorNotUsed] using hm
  cases mode <;> cases hAl : req.specs.dedup.any (fun sp => sp == ALPHA_SPECIFIER) <;>
    simp [check_package_spec, htag, hp, htr, hanu, hb, hAl, addUsed]

lemma check_package_spec_cases (mode : Mode) (anchors : Anchors) (used : List String)
    (node : Node) :
    check_package_spec mode anchors used node = ([], used) ∨
    ((check_package_spec mode anchors used node).1.length ≤ 1 ∧
      (check_package_spec mode anchors used node).2 =
        addUsed (lookupAnchor anchors node) used) := by
  match node with
  | Node.seqNode t items s e => exact Or.inl rfl
  | Node.mapNode t ps s e => exact Or.inl rfl
  | Node.scalar tag v s e =>
    by_cases htag : (tag == yamlTag "str") = true
    · cases hp : parseReq v with
      | none => exact Or.inl (by simp [check_package_spec, hp])
      | some req =>
        by_cases htr : isTrackedPackage req.name = true
        · by_cases hanu :
            anchorNotUsed (lookupAnchor anchors (Node.scalar tag v s e)) used = true
          · refine Or.inr ?_
            cases mode <;>
              cases hAl : req.specs.dedup.any (fun sp => sp == ALPHA_SPECIFIER) <;>
              simp [check_package_spec, htag, hp, htr, hanu, hAl]
          · exact Or.inl (by simp [check_package_spec, htag, hp, htr, hanu])
        · exact Or.inl (by simp [check_package_spec, htag, hp, htr])
    · exact Or.inl (by simp [check_package_spec, htag])

/-- C5: for a node bound to an anchor name, an anchor already used makes
the check a no-op with the used set unchanged; an evaluated node whose
anchor was unused marks the anchor used, whether or not a warning was
emitted; and running the checker over a sequence holding the same
anchored node twice, as a definition and its alias occurrence, produces
at most one warning. -/
theorem anchor_used_once (mode : Mode) (anchors : Anchors) (used : List String)
    (node : Node) (a : String)
    (hb : lookupAnchor anchors node = some a) :
    (a ∈ used → check_package_spec mode anchors used node = ([], used)) ∧
    (isEvaluated node = true → a ∉ used →
      (check_package_spec mode anchors used node).2 = a :: used) ∧
    (∀ s0 e0 : Nat,
      (check_packages mode anchors used
        (Node.seqNode (yamlTag "seq") [node, node] s0 e0)).1.length ≤ 1) := by
  refine ⟨fun hm => check_package_spec_skip mode anchors used node a hb hm, ?_, ?_⟩
  · intro hev hm
    match node, hev with
    | Node.scalar tag v s e, hev =>
      rw [isEvaluated, Bool.and_eq_true] at hev
      obtain ⟨htag, hev⟩ := hev
      match hp : parseReq v, hev with
      | some req, hev =>
        exact check_package_spec_marks mode anchors used tag v s e req a htag hp
          (by simpa using hev) hb hm
  · intro s0 e0
    have hrun : check_packages mode anchors used
        (Node.seqNode (yamlTag "seq") [node, node] s0 e0) =
        runChecks (check_package_spec mode anchors) used [node, node] := by
      simp [check_packages]
    rw [hrun, runChecks, runChecks, runChecks]
    by_cases hm : a ∈ used
    · rw [check_package_spec_skip mode anchors used node a hb hm]
      simp [check_package_spec_skip mode anchors used node a hb hm]
    · rcases check_package_spec_cases mode anchors used node with hz | ⟨hlen, hused⟩
      · rw [hz]
        simp [hz]
      · have hm2 : a ∈ (check_package_spec mode anchors used node).2 := by
          rw [hused, hb, addUsed]
          exact List.mem_cons_self a used
        rw [check_package_spec_skip mode anchors
          (check_package_spec mode anchors used node).2 node a hb hm2]
        simpa using hlen

/-- Witness for C5 on a concrete anchored node occurring twice. -/
theorem anchor_used_once_witness :
    check_package_spec Mode.development
        [("a", Node.scalar (yamlTag "str") "cudf>=24.0" 3 13)] ["a"]
        (Node.scalar (yamlTag "str") "cudf>=24.0" 3 13) = ([], ["a"]) ∧
    (check_package_spec Mode.development
        [("a", Node.scalar (yamlTag "str") "cudf>=24.0" 3 13)] []
        (Node.scalar (yamlTag "str") "cudf>=24.0" 3 13)).2 = ["a"] ∧
    (check_packages Mode.development
        [("a", Node.scalar (yamlTag "str") "cudf>=24.0" 3 13)] []
        (Node.seqNode (yamlTag "seq")
          [Node.scalar (yamlTag "str") "cudf>=24.0" 3 13,
           Node.scalar (yamlTag "str") "cudf>=24.0" 3 13] 0 14)).1.length ≤ 1 := by
  have h1 := anchor_used_once Mode.development
    [("a", Node.scalar (yamlTag "str") "cudf>=24.0" 3 13)] ["a"]
    (Node.scalar (yamlTag "str") "cudf>=24.0" 3 13) "a" (by decide)
  have h2 := anchor_used_once Mode.development
    [("a", Node.scalar (yamlTag "str") "cudf>=24.0" 3 13)] []
    (Node.scalar (yamlTag "str") "cudf>=24.0" 3 13) "a" (by decide)
  exact ⟨h1.1 (by decide), h2.2.1 (by decide) (by decide), h2.2.2 0 14⟩

/-! The cuda-suffix naming rule. -/

lemma cudaSuffixBase_append (base : String) (d1 d2 : Char)
    (h1 : d1.isDigit = true) (h2 : d2.isDigit = true) :
    cudaSuffixBase (base ++ String.mk ['-', 'c', 'u', d1, d2]) = some base := by
  have hT : (base ++ String.mk ['-', 'c', 'u', d1, d2]).toList
      = base.toList ++ ['-', 'c', 'u', d1, d2] := by
    show (base ++ String.mk ['-', 'c', 'u', d1, d2]).data = base.data ++ _
    rw [String.data_append]
  simp only [cudaSuffixBase, hT]
  rw [List.length_append]
  have h5 : (['-', 'c', 'u', d1, d2] : List Char).length = 5 := rfl
  rw [h5, Nat.add_sub_cancel, if_pos (Nat.le_add_left 5 _), List.drop_left, List.take_left]
  simp [h1, h2]

/-- C6: a name of the form base plus "-cu" plus two digits satisfies the
suffix rule exactly when the base is in the suffix-eligible package set,
which is the tracked set minus the non-suffixed exemption; in particular
"rmm-cu12" is recognized and flagged while "dask-cuda-cu12" is not
matched and produces no diagnostic in any mode. -/
theorem cuda_suffix_rule (base : String) (d1 d2 : Char)
    (h1 : d1.isDigit = true) (h2 : d2.isDigit = true) :
    is_rapids_cuda_suffixed_package (base ++ String.mk ['-', 'c', 'u', d1, d2]) =
      RAPIDS_CUDA_SUFFIXED_PACKAGES.contains base ∧
    RAPIDS_CUDA_SUFFIXED_PACKAGES.contains base =
      (RAPIDS_ALPHA_SPEC_PACKAGES.contains base &&
        !RAPIDS_NON_CUDA_SUFFIXED_PACKAGES.contains base) ∧
    is_rapids_cuda_suffixed_package "rmm-cu12" = true ∧
    is_rapids_cuda_suffixed_package "dask-cuda-cu12" = false ∧
    check_package_spec Mode.development [] []
        (Node.scalar (yamlTag "str") "rmm-cu12>=24.0" 0 14) =
      ([{ span := (0, 14), message := "add alpha spec for RAPIDS package rmm-cu12",
          replacement := some ((0, 14), "rmm-cu12>=24.0,>=0.0.0a0") }], []) ∧
    (∀ (mode : Mode) (anchors : Anchors) (used : List String) (s e : Nat),
      check_package_spec mode anchors used
        (Node.scalar (yamlTag "str") "dask-cuda-cu12>=24.0" s e) = ([], used)) := by
  refine ⟨?_, ?_, by decide, by decide, by decide, ?_⟩
  · unfold is_rapids_cuda_suffixed_package
    rw [cudaSuffixBase_append base d1 d2 h1 h2, List.contains_eq_any_beq]
    have hfun : (fun p : String => (some base == some p : Bool)) = fun p => base == p := by
      funext p
      rfl
    rw [hfun]
  · rw [Bool.eq_iff_iff]
    constructor
    · intro hc
      have hb := List.elem_iff.mp hc
      unfold RAPIDS_CUDA_SUFFIXED_PACKAGES at hb
      obtain ⟨hin, hnot⟩ := List.mem_filter.mp hb
      rw [Bool.and_eq_true]
      exact ⟨List.elem_iff.mpr hin, hnot⟩
    · intro hc
      rw [Bool.and_eq_true] at hc
      obtain ⟨hin, hnot⟩ := hc
      apply List.elem_iff.mpr
      unfold RAPIDS_CUDA_SUFFIXED_PACKAGES
      exact List.mem_filter.mpr ⟨List.elem_iff.mp hin, hnot⟩
  · intro mode anchors used s e
    have hp : parseReq "dask-cuda-cu12>=24.0" =
        some ⟨"dask-cuda-cu12", [], [">=24.0"], none⟩ := by decide
    have htr : isTrackedPackage "dask-cuda-cu12" = false := by decide
    cases mode <;> simp [check_package_spec, hp, htr]

/-- Witness for C6 at the concrete suffixed name "rmm-cu12". -/
theorem cuda_suffix_rule_witness :
    is_rapids_cuda_suffixed_package ("rmm" ++ String.mk ['-', 'c', 'u', '1', '2']) =
      RAPIDS_CUDA_SUFFIXED_PACKAGES.contains "rmm" ∧
    check_package_spec Mode.release [] []
        (Node.scalar (yamlTag "str") "dask-cuda-cu12>=24.0" 7 27) = ([], []) := by
  have h := cuda_suffix_rule "rmm" '1' '2' (by decide) (by decide)
  exact ⟨h.1, h.2.2.2.2.2 Mode.release [] [] 7 27⟩

/-! Soft-skip behavior. -/

/-- C7: a scalar whose text fails the requirement grammar, or parses to
an untracked name, yields no diagnostic and leaves the used-anchor set
unchanged; a name such as "numpy" never yields a diagnostic in any mode
regardless of specifiers; and a skipped node contributes nothing to a
sequence walk, which continues with the remaining nodes. -/
theorem soft_skip (mode : Mode) (anchors : Anchors) (used : List String)
    (tag v : String) (s e : Nat) :
    (parseReq v = none →
      check_package_spec mode anchors used (Node.scalar tag v s e) = ([], used)) ∧
    (∀ req, parseReq v = some req → isTrackedPackage req.name = false →
      check_package_spec mode anchors used (Node.scalar tag v s e) = ([], used)) ∧
    (∀ req, parseReq v = some req → req.name = "numpy" →
      check_package_spec mode anchors used (Node.scalar tag v s e) = ([], used)) ∧
    (∀ (node : Node) (rest : List Node) (tg : String) (s0 e0 : Nat),
      check_package_spec mode anchors used node = ([], used) →
      check_packages mode anchors used (Node.seqNode tg (node :: rest) s0 e0) =
        check_packages mode anchors used (Node.seqNode tg rest s0 e0)) := by
  refine ⟨?_, ?_, ?_, ?_⟩
  · intro hp
    simp [check_package_spec, hp]
  · intro req hp htr
    simp [check_package_spec, hp, htr]
  · intro req hp hname
    have htr : isTrackedPackage req.name = false := by
      rw [hname]
      decide
    simp [check_package_spec, hp, htr]
  · intro node rest tg s0 e0 hz
    by_cases htg : (tg == yamlTag "seq") = true
    · simp [check_packages, htg, runChecks, hz]
    · simp [check_packages, htg]

/-- Witness for C7 on a malformed requirement, a non-tracked name, and
the continuation of a walk past a skipped node. -/
theorem soft_skip_witness :
    check_package_spec Mode.development [] []
        (Node.scalar (yamlTag "str") "not a req !!" 0 12) = ([], []) ∧
    check_package_spec Mode.development [] []
        (Node.scalar (yamlTag "str") "numpy>=1.0" 0 10) = ([], []) ∧
    check_packages Mode.development [] []
        (Node.seqNode (yamlTag "seq")
          [Node.scalar (yamlTag "str") "not a req !!" 0 12,
           Node.scalar (yamlTag "str") "cudf>=24.0" 14 24] 0 25) =
      check_packages Mode.development [] []
        (Node.seqNode (yamlTag "seq")
          [Node.scalar (yamlTag "str") "cudf>=24.0" 14 24] 0 25) := by
  have h1 := soft_skip Mode.development [] [] (yamlTag "str") "not a req !!" 0 12
  have h2 := soft_skip Mode.development [] [] (yamlTag "str") "numpy>=1.0" 0 10
  have hbad := h1.1 (by decide)
  exact ⟨hbad, h2.2.2.1 ⟨"numpy", [], [">=1.0"], none⟩ (by decide) rfl,
    h1.2.2.2 (Node.scalar (yamlTag "str") "not a req !!" 0 12)
      [Node.scalar (yamlTag "str") "cudf>=24.0" 14 24] (yamlTag "seq") 0 25 hbad⟩

/-! Extras and environment markers are dropped by the rewritten text. -/

lemma fix_text_clean (name : List Char) (cls : List String)
    (hn : ∀ c ∈ name, isNameChar c = true)
    (hwf : ∀ sp ∈ cls, wfClause sp.toList) :
    ∀ c ∈ name ++ joinChar ',' (cls.map String.toList), c ≠ '[' ∧ c ≠ ';' := by
  intro c hc
  rcases List.mem_append.mp hc with hc | hc
  · have hf := isNameChar_facts (hn c hc)
    exact ⟨hf.2.2.2, hf.2.2.1⟩
  · rcases mem_joinChar hc with rfl | ⟨x, hx, hcx⟩
    · exact ⟨by decide, by decide⟩
    · obtain ⟨sp, hsp, rfl⟩ := List.mem_map.mp hx
      have hf := wfClause_chars (hwf sp hsp) c hcx
      exact ⟨hf.2.2.2, hf.2.2.1⟩

/-- C9: when a flagged tracked requirement carries extras or an
environment marker, the replacement text still consists only of the
optional anchor declaration, the name, and the canonical specifier
string: the extras bracket and the marker are dropped, and indeed no
bracket or semicolon character occurs in the rewritten requirement. -/
theorem extras_marker_dropped (anchors : Anchors) (used : List String)
    (v : String) (s e : Nat) (req : Req)
    (hp : parseReq v = some req)
    (hx : req.extras ≠ [] ∨ req.marker ≠ none)
    (htr : isTrackedPackage req.name = true)
    (hu : anchorNotUsed (lookupAnchor anchors (Node.scalar (yamlTag "str") v s e)) used = true) :
    (ALPHA_SPECIFIER ∉ req.specs →
      check_package_spec Mode.development anchors used (Node.scalar (yamlTag "str") v s e) =
        ([{ span := (s, e),
            message := "add alpha spec for RAPIDS package " ++ req.name,
            replacement := some ((s, e),
              anchorText (lookupAnchor anchors (Node.scalar (yamlTag "str") v s e)) ++ req.name ++
                create_specifier_string (pyUnion req.specs.dedup [ALPHA_SPECIFIER])) }],
          addUsed (lookupAnchor anchors (Node.scalar (yamlTag "str") v s e)) used) ∧
      (∀ c ∈ (req.name ++
          create_specifier_string (pyUnion req.specs.dedup [ALPHA_SPECIFIER])).toList,
        c ≠ '[' ∧ c ≠ ';')) ∧
    (ALPHA_SPECIFIER ∈ req.specs →
      check_package_spec Mode.release anchors used (Node.scalar (yamlTag "str") v s e) =
        ([{ span := (s, e),
            message := "remove alpha spec for RAPIDS package " ++ req.name,
            replacement := some ((s, e),
              anchorText (lookupAnchor anchors (Node.scalar (yamlTag "str") v s e)) ++ req.name ++
                create_specifier_string (pyDiff req.specs.dedup [ALPHA_SPECIFIER])) }],
          addUsed (lookupAnchor anchors (Node.scalar (yamlTag "str") v s e)) used) ∧
      (∀ c ∈ (req.name ++
          create_specifier_string (pyDiff req.specs.dedup [ALPHA_SPECIFIER])).toList,
        c ≠ '[' ∧ c ≠ ';')) := by
  obtain ⟨hn, hwf⟩ := parseReq_shape hp
  have hnm : ∀ c ∈ req.name.toList, isNameChar c = true := validName_all hn
  constructor
  · intro ha
    constructor
    · simp only [check_package_spec, beq_self_eq_true, if_true, hp, htr, hu,
        hasAlpha_of_not_mem ha, Bool.not_false]
    · have hwfS : ∀ sp ∈ sortSpecifiers (pyUnion req.specs.dedup [ALPHA_SPECIFIER]),
          wfClause sp.toList := by
        intro sp hsp
        rcases mem_pyUnion_alpha ((sortSpecifiers_perm _).mem_iff.mp hsp) with h | rfl
        · exact hwf sp h
        · exact wfClause_alpha
      have hT : (req.name ++
            create_specifier_string (pyUnion req.specs.dedup [ALPHA_SPECIFIER])).toList =
          req.name.toList ++ joinChar ','
            ((sortSpecifiers (pyUnion req.specs.dedup [ALPHA_SPECIFIER])).map String.toList) := by
        show (req.name ++ String.mk _).data = req.name.data ++ _
        rw [String.data_append]
      rw [hT]
      exact fix_text_clean req.name.toList _ hnm hwfS
  · intro ha
    constructor
    · simp only [check_package_spec, beq_self_eq_true, if_true, hp, htr, hu,
        hasAlpha_of_mem ha]
    · have hwfS : ∀ sp ∈ sortSpecifiers (pyDiff req.specs.dedup [ALPHA_SPECIFIER]),
          wfClause sp.toList := by
        intro sp hsp
        exact hwf sp (List.mem_dedup.mp (mem_pyDiff ((sortSpecifiers_perm _).mem_iff.mp hsp)))
      have hT : (req.name ++
            create_specifier_string (pyDiff req.specs.dedup [ALPHA_SPECIFIER])).toList =
          req.name.toList ++ joinChar ','
            ((sortSpecifiers (pyDiff req.specs.dedup [ALPHA_SPECIFIER])).map String.toList) := by
        show (req.name ++ String.mk _).data = req.name.data ++ _
        rw [String.data_append]
      rw [hT]
      exact fix_text_clean req.name.toList _ hnm hwfS

/-- Witness for C9 on a requirement with both extras and a marker. -/
theorem extras_marker_dropped_witness :
    check_package_spec Mode.development [] []
        (Node.scalar (yamlTag "str")
          "cudf[test]>=24.0; python_version < \"3.10\"" 0 41) =
      ([{ span := (0, 41), message := "add alpha spec for RAPIDS package cudf",
          replacement := some ((0, 41), "cudf>=24.0,>=0.0.0a0") }], []) := by
  have h := extras_marker_dropped [] [] "cudf[test]>=24.0; python_version < \"3.10\"" 0 41
    ⟨"cudf", ["test"], [">=24.0"], some "python_version < \"3.10\""⟩
    (by decide) (Or.inl (by decide)) (by decide) (by decide)
  exact (h.1 (by decide)).1.trans (by decide)

/-! The empty-stream behavior of check_alpha_spec. -/

/-- C10: on input that composes zero YAML documents, such as the empty
string, check_alpha_spec indexes position zero of the empty per-document
anchor list and raises IndexError: it does not complete with a warning
list and does not raise a YAML parse error. -/
theorem empty_stream_index_error (mode : Mode) :
    check_alpha_spec mode [] = Except.error "IndexError" ∧
    ∀ ws : List Warning, check_alpha_spec mode [] ≠ Except.ok ws := by
  refine ⟨rfl, ?_⟩
  intro ws h
  simp [check_alpha_spec] at h

/-- Witness for C10 in development mode. -/
theorem empty_stream_index_error_witness :
    check_alpha_spec Mode.development [] = Except.error "IndexError" :=
  (empty_stream_index_error Mode.development).1

/-! The schema walker visits exactly the candidate nodes of the two
fixed paths, in document order. -/

lemma runChecks_append {α : Type} (f : List String → α → List Warning × List String)
    (used : List String) (xs ys : List α) :
    runChecks f used (xs ++ ys) =
      ((runChecks f used xs).1 ++ (runChecks f (runChecks f used xs).2 ys).1,
        (runChecks f (runChecks f used xs).2 ys).2) := by
  induction xs generalizing used with
  | nil => simp [runChecks]
  | cons x xs ih => simp [runChecks, ih, List.append_assoc]

lemma runChecks_flatMap {α β : Type} (f : List String → β → List Warning × List String)
    (step : List String → α → List Warning × List String) (g : α → List β)
    (h : ∀ used a, step used a = runChecks f used (g a)) :
    ∀ (used : List String) (xs : List α),
      runChecks step used xs = runChecks f used (xs.flatMap g)
  | _, [] => rfl
  | used, x :: xs => by
    rw [List.flatMap_cons, runChecks_append, ← h used x,
      ← runChecks_flatMap f step g h (step used x).2 xs]
    rfl

lemma check_packages_eq (mode : Mode) (anchors : Anchors) (used : List String)
    (node : Node) :
    check_packages mode anchors used node =
      runChecks (check_package_spec mode anchors) used (packagesCandidates node) := by
  match node with
  | Node.scalar .. => rfl
  | Node.mapNode .. => rfl
  | Node.seqNode tag items s e =>
    by_cases htg : (tag == yamlTag "seq") = true
    · simp [check_packages, packagesCandidates, htg]
    · simp [check_packages, packagesCandidates, htg, runChecks]

lemma pairs_step_eq (mode : Mode) (anchors : Anchors) (key : String) :
    ∀ (used : List String) (kv : Node × Node),
      (if isStrKeyNamed kv.1 key then check_packages mode anchors used kv.2
       else ([], used)) =
        runChecks (check_package_spec mode anchors) used
          (if isStrKeyNamed kv.1 key then packagesCandidates kv.2 else []) := by
  intro used kv
  by_cases hk : isStrKeyNamed kv.1 key = true
  · simp only [hk, if_true]
    exact check_packages_eq mode anchors used kv.2
  · simp [hk, runChecks]

lemma check_common_eq (mode : Mode) (anchors : Anchors) (used : List String)
    (node : Node) :
    check_common mode anchors used node =
      runChecks (check_package_spec mode anchors) used (commonCandidates node) := by
  match node with
  | Node.scalar .. => rfl
  | Node.mapNode .. => rfl
  | Node.seqNode tag items s e =>
    by_cases htg : (tag == yamlTag "seq") = true
    · simp only [check_common, commonCandidates, htg, if_true]
      apply runChecks_flatMap
      intro used ds
      match ds with
      | Node.scalar .. => rfl
      | Node.seqNode .. => rfl
      | Node.mapNode t ps s2 e2 =>
        by_cases ht2 : (t == yamlTag "map") = true
        · simp only [ht2, if_true, packagesOfPairs]
          apply runChecks_flatMap
          exact pairs_step_eq mode anchors "packages"
        · simp [ht2, runChecks]
    · simp [check_common, commonCandidates, htg, runChecks]

lemma check_matrices_eq (mode : Mode) (anchors : Anchors) (used : List String)
    (node : Node) :
    check_matrices mode anchors used node =
      runChecks (check_package_spec mode anchors) used (matricesCandidates node) := by
  match node with
  | Node.scalar .. => rfl
  | Node.mapNode .. => rfl
  | Node.seqNode tag items s e =>
    by_cases htg : (tag == yamlTag "seq") = true
    · simp only [check_matrices, matricesCandidates, htg, if_true]
      apply runChecks_flatMap
      intro used item
      match item with
      | Node.scalar .. => rfl
      | Node.seqNode .. => rfl
      | Node.mapNode t ps s2 e2 =>
        by_cases ht2 : (t == yamlTag "map") = true
        · simp only [ht2, if_true, packagesOfPairs]
          apply runChecks_flatMap
          exact pairs_step_eq mode anchors "packages"
        · simp [ht2, runChecks]
    · simp [check_matrices, matricesCandidates, htg, runChecks]

lemma check_specific_eq (mode : Mode) (anchors : Anchors) (used : List String)
    (node : Node) :
    check_specific mode anchors used node =
      runChecks (check_package_spec mode anchors) used (specificCandidates node) := by
  match node with
  | Node.scalar .. => rfl
  | Node.mapNode .. => rfl
  | Node.seqNode tag items s e =>
    by_cases htg : (tag == yamlTag "seq") = true
    · simp only [check_specific, specificCandidates, htg, if_true]
      apply runChecks_flatMap
      intro used mm
      match mm with
      | Node.scalar .. => rfl
      | Node.seqNode .. => rfl
      | Node.mapNode t ps s2 e2 =>
        by_cases ht2 : (t == yamlTag "map") = true
        · simp only [ht2, if_true]
          apply runChecks_flatMap
          intro used kv
          by_cases hk : isStrKeyNamed kv.1 "matrices" = true
          · simp only [hk, if_true]
            exact check_matrices_eq mode anchors used kv.2
          · simp [hk, runChecks]
        · simp [ht2, runChecks]
    · simp [check_specific, specificCandidates, htg, runChecks]

lemma check_dependencies_eq (mode : Mode) (anchors : Anchors) (used : List String)
    (node : Node) :
    check_dependencies mode anchors used node =
      runChecks (check_package_spec mode anchors) used (dependenciesCandidates node) := by
  match node with
  | Node.scalar .. => rfl
  | Node.seqNode .. => rfl
  | Node.mapNode tag ps s e =>
    by_cases htg : (tag == yamlTag "map") = true
    · simp only [check_dependencies, dependenciesCandidates, htg, if_true]
      apply runChecks_flatMap
      intro used kv
      match hkv : kv.2 with
      | Node.scalar .. => rfl
      | Node.seqNode .. => rfl
      | Node.mapNode t dps s2 e2 =>
        by_cases ht2 : (t == yamlTag "map") = true
        · simp only [ht2, if_true]
          apply runChecks_flatMap
          intro used dkv
          by_cases hc : isStrKeyNamed dkv.1 "common" = true
          · simp only [hc, if_true]
            exact check_common_eq mode anchors used dkv.2
          · by_cases hs : isStrKeyNamed dkv.1 "specific" = true
            · simp only [hc, hs, if_true, if_false]
              exact check_specific_eq mode anchors used dkv.2
            · simp [hc, hs, runChecks]
        · simp [ht2, runChecks]
    · simp [check_dependencies, dependenciesCandidates, htg, runChecks]

/-- C8: the walk from the document root is exactly a sequential run of
the policy check over the candidate nodes reachable through the two
fixed schema paths, in document order; every branch whose tag or key
does not match the expected kind contributes no candidates, no
diagnostic and no error. -/
theorem check_root_visits_candidates (mode : Mode) (anchors : Anchors)
    (used : List String) (root : Node) :
    check_root mode anchors used root =
      runChecks (check_package_spec mode anchors) used (rootCandidates root) := by
  match root with
  | Node.scalar .. => rfl
  | Node.seqNode .. => rfl
  | Node.mapNode tag ps s e =>
    by_cases htg : (tag == yamlTag "map") = true
    · simp only [check_root, rootCandidates, htg, if_true]
      apply runChecks_flatMap
      intro used kv
      by_cases hk : isStrKeyNamed kv.1 "dependencies" = true
      · simp only [hk, if_true]
        exact check_dependencies_eq mode anchors used kv.2
      · simp [hk, runChecks]
    · simp [check_root, rootCandidates, htg, runChecks]

/-- Witness for C8 on a small concrete document tree holding one common
packages sequence and one unrelated branch. -/
theorem check_root_visits_candidates_witness :
    check_root Mode.development [] []
        (Node.mapNode (yamlTag "map")
          [(Node.scalar (yamlTag "str") "dependencies" 0 12,
            Node.mapNode (yamlTag "map")
              [(Node.scalar (yamlTag "str") "run" 14 17,
                Node.mapNode (yamlTag "map")
                  [(Node.scalar (yamlTag "str") "common" 19 25,
                    Node.seqNode (yamlTag "seq")
                      [Node.mapNode (yamlTag "map")
                        [(Node.scalar (yamlTag "str") "packages" 27 35,
                          Node.seqNode (yamlTag "seq")
                            [Node.scalar (yamlTag "str") "cudf>=24.0" 37 47] 36 48)]
                        26 49] 25 50),
                   (Node.scalar (yamlTag "str") "other" 51 56,
                    Node.scalar (yamlTag "str") "ignored" 58 65)] 18 66)] 13 67)]
          0 68) =
      runChecks (check_package_spec Mode.development []) []
        (rootCandidates
          (Node.mapNode (yamlTag "map")
            [(Node.scalar (yamlTag "str") "dependencies" 0 12,
              Node.mapNode (yamlTag "map")
                [(Node.scalar (yamlTag "str") "run" 14 17,
                  Node.mapNode (yamlTag "map")
                    [(Node.scalar (yamlTag "str") "common" 19 25,
                      Node.seqNode (yamlTag "seq")
                        [Node.mapNode (yamlTag "map")
                          [(Node.scalar (yamlTag "str") "packages" 27 35,
                            Node.seqNode (yamlTag "seq")
                              [Node.scalar (yamlTag "str") "cudf>=24.0" 37 47] 36 48)]
                          26 49] 25 50),
                     (Node.scalar (yamlTag "str") "other" 51 56,
                      Node.scalar (yamlTag "str") "ignored" 58 65)] 18 66)] 13 67)]
            0 68)) :=
  check_root_visits_candidates Mode.development [] [] _

end AlphaSpec
